import Mathlib

/-!
Shallow embedding of the tilelang constraint-tracking layer
(`src/transform/common/constraint.h`, `constr_visitor.h`, `constr_mutator.h`).

Modelling conventions:
* TVM IR nodes are reference-counted heap objects; `same_as` is pointer
  identity.  Every node of the embedded AST carries a `tag : Nat` that models
  the object identity of the underlying heap cell.  The mutator threads a
  fresh-tag counter and stamps every node it constructs with a fresh tag, so
  a reconstructed node is never `same_as` any node of the input tree
  (callers are expected to start the counter above every tag of the input,
  which the concrete inputs below do).  Expressions that are built only to be
  stored inside a `Constr` (facts on the stack) are never compared by
  identity by the code under study, so the helper constructors used for them
  stamp tag `0`.
* The traversal side effects of the two walkers (pushes and pops on the
  member `constr_stack_`, and the dispatch of `VisitExpr` / `VisitStmt` on a
  node) are reified as an event list; `replay` recovers the stack contents
  at any point of the walk, and `visitsWithStacks` recovers the stack seen
  at the moment each node is dispatched.
* TVM exceptions (the `Downcast` in the `AttrStmt` handlers can throw on a
  malformed payload) are modelled by an `ok` flag (visitor) / an
  `Option Stmt` result (mutator); the RAII scope guards pop their fact on
  the unwind path, which the event lists reproduce.
-/

namespace TL

/-- A `tir::Var`: object identity plus the name hint. -/
structure VarT where
  tag : Nat
  name : String
deriving DecidableEq, Repr

/-- `PrimExpr`: the expression nodes the two walkers inspect or build.
Each constructor's first `Nat` (or the variable's `tag`) is the node's
object identity. -/
inductive PExpr where
  | var (v : VarT)
  | imm (tag : Nat) (value : Int)
  | add (tag : Nat) (a b : PExpr)
  | eqE (tag : Nat) (a b : PExpr)
  | geE (tag : Nat) (a b : PExpr)
  | ltE (tag : Nat) (a b : PExpr)
  | gtE (tag : Nat) (a b : PExpr)
  | andE (tag : Nat) (a b : PExpr)
  | notE (tag : Nat) (a : PExpr)
  | select (tag : Nat) (condition true_value false_value : PExpr)
  | call (tag : Nat) (op : String) (args : List PExpr)

/-- Object identity of an expression node. -/
def PExpr.tag : PExpr → Nat
  | .var v => v.tag
  | .imm t _ => t
  | .add t _ _ => t
  | .eqE t _ _ => t
  | .geE t _ _ => t
  | .ltE t _ _ => t
  | .gtE t _ _ => t
  | .andE t _ _ => t
  | .notE t _ => t
  | .select t _ _ _ => t
  | .call t _ _ => t

/-- `a.same_as(b)`: pointer identity, modelled through the identity tags. -/
def sameAs (a b : PExpr) : Bool := a.tag == b.tag

/-- `tir::Not(e)` built for a fact (never compared by identity): tag 0. -/
def mkNot (e : PExpr) : PExpr := .notE 0 e

/-- `a == b` as built by `ToGenericConstr`. -/
def mkEq (a b : PExpr) : PExpr := .eqE 0 a b

/-- `a >= b` as built by `ToGenericConstr`. -/
def mkGe (a b : PExpr) : PExpr := .geE 0 a b

/-- `a < b` as built by `ToGenericConstr`. -/
def mkLt (a b : PExpr) : PExpr := .ltE 0 a b

/-- `a > b` as built by the loop handlers (`op->extent > 0`). -/
def mkGt (a b : PExpr) : PExpr := .gtE 0 a b

/-- `a + b` as built by `ToGenericConstr`. -/
def mkAdd (a b : PExpr) : PExpr := .add 0 a b

/-- `tir::And(a, b)` as built by `ToGenericConstr`. -/
def mkAnd (a b : PExpr) : PExpr := .andE 0 a b

/-- `make_zero(dtype)`: the integer literal 0. -/
def mkZero : PExpr := .imm 0 0

/-- `Range`, always handled through min/extent here
(`Range::FromMinExtent(min, extent)` is the anonymous constructor). -/
structure RangeT where
  min : PExpr
  extent : PExpr

/-- The tagged union `Constr` of `constraint.h`: the `kind` discriminator
(`kConstr` / `kBindValue` / `kBindRange`) together with the fields each kind
actually uses becomes an inductive with one constructor per kind.  The
one-argument C++ constructor defaults `is_assume` to `false`. -/
inductive Constr where
  | constr (value : PExpr) (is_assume : Bool)
  | bindValue (var : VarT) (value : PExpr)
  | bindRange (var : VarT) (range : RangeT)

/-- `Constr::ToGenericConstr`. -/
def Constr.ToGenericConstr : Constr → PExpr
  | .constr value _ => value
  | .bindValue v value => mkEq (.var v) value
  | .bindRange v r => mkAnd (mkGe (.var v) r.min) (mkLt (.var v) (mkAdd r.min r.extent))

/-- A variable-to-expression mapping (`ffi::Map<tir::Var, PrimExpr>`),
modelled as an association list. -/
def Subst := List (VarT × PExpr)

/-- Lookup in a substitution map. -/
def lookupS : List (VarT × PExpr) → VarT → Option PExpr
  | [], _ => none
  | (v, e) :: rest, w => if v = w then some e else lookupS rest w

mutual
/-- `tir::Substitute(expr, subs)`: the external expression-substitution
collaborator; replaces every variable occurrence that the map binds.
(The embedded AST has no expression-level binders, so plain structural
replacement is exact.)  Substitution rebuilds nodes, and the rebuilt nodes'
identities are never inspected by the code under study, so tags are kept. -/
def substE (m : List (VarT × PExpr)) : PExpr → PExpr
  | .var v => match lookupS m v with
    | some e => e
    | none => .var v
  | .imm t n => .imm t n
  | .add t a b => .add t (substE m a) (substE m b)
  | .eqE t a b => .eqE t (substE m a) (substE m b)
  | .geE t a b => .geE t (substE m a) (substE m b)
  | .ltE t a b => .ltE t (substE m a) (substE m b)
  | .gtE t a b => .gtE t (substE m a) (substE m b)
  | .andE t a b => .andE t (substE m a) (substE m b)
  | .notE t a => .notE t (substE m a)
  | .select t c tv fv => .select t (substE m c) (substE m tv) (substE m fv)
  | .call t op args => .call t op (substEs m args)

/-- Substitution mapped over an argument list. -/
def substEs (m : List (VarT × PExpr)) : List PExpr → List PExpr
  | [] => []
  | e :: es => substE m e :: substEs m es
end

/-- `Constr::Substitute`: `Constr(tir::Substitute(ToGenericConstr(), subs))` —
the one-argument `Constr` constructor, so kind `kConstr` and `is_assume`
defaulted to `false`. -/
def Constr.Substitute (c : Constr) (subs : List (VarT × PExpr)) : Constr :=
  .constr (substE subs c.ToGenericConstr) false

/-- One recorded call into the external `arith::Analyzer` interface. -/
inductive AEntry where
  | fact (e : PExpr)
  | boundValue (v : VarT) (e : PExpr)
  | boundRange (v : VarT) (r : RangeT)

/-- The external analyzer, modelled by the ordered record of the interface
calls made on it (its proof procedure stays abstract; see `CanProve`). -/
structure Analyzer where
  entries : List AEntry

/-- `analyzer.EnterConstraint(expr)`. -/
def Analyzer.EnterConstraint (a : Analyzer) (e : PExpr) : Analyzer :=
  ⟨a.entries ++ [.fact e]⟩

/-- `analyzer.Bind(var, expr)` (value overload). -/
def Analyzer.BindValue (a : Analyzer) (v : VarT) (e : PExpr) : Analyzer :=
  ⟨a.entries ++ [.boundValue v e]⟩

/-- `analyzer.Bind(var, range)` (range overload). -/
def Analyzer.BindRange (a : Analyzer) (v : VarT) (r : RangeT) : Analyzer :=
  ⟨a.entries ++ [.boundRange v r]⟩

/-- `Constr::Populate(analyzer)`: replay the fact through the most specific
interface call. -/
def Constr.Populate (c : Constr) (a : Analyzer) : Analyzer :=
  match c with
  | .constr value _ => a.EnterConstraint value
  | .bindValue v value => a.BindValue v value
  | .bindRange v r => a.BindRange v r

/-- The single analyzer entry a given `Constr` contributes (used to state
what `ConstrSet::Populate` leaves in a fresh analyzer). -/
def Constr.entryOf : Constr → AEntry
  | .constr value _ => .fact value
  | .bindValue v value => .boundValue v value
  | .bindRange v r => .boundRange v r

/-- `ConstrSet`: the ordered fact collection (field `constrs_`). -/
structure ConstrSet where
  constrs_ : List Constr

/-- `ConstrSet::Substitute`: element-wise, building a new set. -/
def ConstrSet.Substitute (s : ConstrSet) (subs : List (VarT × PExpr)) : ConstrSet :=
  ⟨s.constrs_.map (fun c => c.Substitute subs)⟩

/-- `ConstrSet::Populate`: replay all facts, in insertion order. -/
def ConstrSet.Populate (s : ConstrSet) (a : Analyzer) : Analyzer :=
  s.constrs_.foldl (fun acc c => c.Populate acc) a

/-- `ConstrSet::CanProve`: a local `arith::Analyzer analyzer;` is
default-constructed (empty), populated from the set, and asked.  The
analyzer's decision procedure is external, so it is passed in as `oracle`. -/
def ConstrSet.CanProve (oracle : Analyzer → PExpr → Bool) (s : ConstrSet)
    (e : PExpr) : Bool :=
  let analyzer : Analyzer := ⟨[]⟩
  oracle (s.Populate analyzer) e

/-- `ConstrSet::AddConstr` (append one fact). -/
def ConstrSet.AddConstr (s : ConstrSet) (c : Constr) : ConstrSet :=
  ⟨s.constrs_ ++ [c]⟩

/-- `ConstrSet::Extend` (append another set). -/
def ConstrSet.Extend (s other : ConstrSet) : ConstrSet :=
  ⟨s.constrs_ ++ other.constrs_⟩

/-- `tir::ForKind`. -/
inductive ForKind where
  | serial
  | parallel
  | vectorized
  | unrolled
  | threadBinding
deriving DecidableEq

/-- The attribute keys the walkers recognise, plus everything else. -/
inductive AttrKey where
  | tilelangAssume
  | threadExtent
  | virtualThread
  | otherAttr (name : String)

/-- `tir::IterVar`: object identity plus its variable (the only field the
walkers read). -/
structure IterVarT where
  tag : Nat
  var : VarT

/-- The `ObjectRef` payload of an `AttrStmt` (`op->node`); `Downcast` in the
walkers succeeds only when the payload has the expected runtime type. -/
inductive ObjRef where
  | exprRef (e : PExpr)
  | iterVarRef (iv : IterVarT)
  | otherRef

/-- `tir::Stmt`: the statement nodes the two walkers override, plus
`Evaluate` as the node that embeds an expression in a statement.  The first
`Nat` of each constructor is the node's object identity. -/
inductive Stmt where
  | letStmt (tag : Nat) (var : VarT) (value : PExpr) (body : Stmt)
  | attrStmt (tag : Nat) (node : ObjRef) (attr_key : AttrKey) (value : PExpr) (body : Stmt)
  | assertStmt (tag : Nat) (condition : PExpr) (message : PExpr) (body : Stmt)
  | ifThenElse (tag : Nat) (condition : PExpr) (then_case : Stmt) (else_case : Option Stmt)
  | forS (tag : Nat) (loop_var : VarT) (min : PExpr) (extent : PExpr) (kind : ForKind) (body : Stmt)
  | whileS (tag : Nat) (condition : PExpr) (body : Stmt)
  | evaluate (tag : Nat) (value : PExpr)

/-- Object identity of a statement node. -/
def Stmt.tag : Stmt → Nat
  | .letStmt t _ _ _ => t
  | .attrStmt t _ _ _ _ => t
  | .assertStmt t _ _ _ => t
  | .ifThenElse t _ _ _ => t
  | .forS t _ _ _ _ _ => t
  | .whileS t _ _ => t
  | .evaluate t _ => t

/-- `a.same_as(b)` on statements. -/
def sameAsS (a b : Stmt) : Bool := a.tag == b.tag

/-- One observable step of a walk: a push onto `constr_stack_` (from
`MakeGuard`), the matching pop (the `Guard` destructor), or the dispatch of
`VisitExpr`/`VisitStmt` on the node with the given identity. -/
inductive Ev where
  | push (c : Constr)
  | pop
  | visit (tag : Nat)

/-- How one event transforms the `constr_stack_` contents
(`push_back` / `pop_back`). -/
def stepEv (s : List Constr) : Ev → List Constr
  | .push c => s ++ [c]
  | .pop => s.dropLast
  | .visit _ => s

/-- The stack contents after a list of events, starting from `s`. -/
def replay (evs : List Ev) (s : List Constr) : List Constr :=
  evs.foldl stepEv s

/-- The (node identity, stack at the moment that node is dispatched) pairs
of an event trace, starting from stack `s`. -/
def visitsWithStacks : List Ev → List Constr → List (Nat × List Constr)
  | [], _ => []
  | .push c :: rest, s => visitsWithStacks rest (s ++ [c])
  | .pop :: rest, s => visitsWithStacks rest s.dropLast
  | .visit n :: rest, s => (n, s) :: visitsWithStacks rest s

/-- The node identities dispatched during a trace, in order. -/
def visitedTags (evs : List Ev) : List Nat :=
  evs.filterMap (fun ev => match ev with
    | .visit n => some n
    | _ => none)

/-- The stacks observed at every dispatch of the node with identity `n`. -/
def stacksAt (n : Nat) (trace : List (Nat × List Constr)) : List (List Constr) :=
  (trace.filter (fun pr => pr.1 == n)).map (fun pr => pr.2)

namespace ConstrVisitor

/-- The events of `ConstrVisitor::VisitIfThenElseExpr(cond, tv, fv)` given
the already-computed event lists of the two branch visits: guard on `cond`
around the true-value visit, then guard on `tir::Not(cond)` around the
false-value visit.  The condition itself is not dispatched. -/
def iteEvents (cond : PExpr) (etv efv : List Ev) : List Ev :=
  .push (.constr cond false) :: etv ++ [.pop] ++
    .push (.constr (mkNot cond) false) :: efv ++ [.pop]

mutual
/-- `ConstrVisitor`'s `VisitExpr` dispatch, reified as the event trace it
produces.  Non-overridden nodes follow the `tir::ExprVisitor` defaults
(visit each child in field order); `SelectNode` and calls to
`tir.if_then_else` are routed through `VisitIfThenElseExpr`. -/
def VisitExpr : PExpr → List Ev
  | .var v => [.visit v.tag]
  | .imm t _ => [.visit t]
  | .add t a b => .visit t :: (VisitExpr a ++ VisitExpr b)
  | .eqE t a b => .visit t :: (VisitExpr a ++ VisitExpr b)
  | .geE t a b => .visit t :: (VisitExpr a ++ VisitExpr b)
  | .ltE t a b => .visit t :: (VisitExpr a ++ VisitExpr b)
  | .gtE t a b => .visit t :: (VisitExpr a ++ VisitExpr b)
  | .andE t a b => .visit t :: (VisitExpr a ++ VisitExpr b)
  | .notE t a => .visit t :: VisitExpr a
  | .select t c tv fv => .visit t :: iteEvents c (VisitExpr tv) (VisitExpr fv)
  | .call t op (a :: b :: c :: rest) =>
    if op = "tir.if_then_else" then
      .visit t :: iteEvents a (VisitExpr b) (VisitExpr c)
    else
      .visit t :: (VisitExpr a ++ VisitExpr b ++ VisitExpr c ++ VisitExprs rest)
  | .call t _ args => .visit t :: VisitExprs args

/-- The `tir::ExprVisitor` default for an argument array: visit each
element in order. -/
def VisitExprs : List PExpr → List Ev
  | [] => []
  | e :: es => VisitExpr e ++ VisitExprs es
end

/-- Result of a statement visit: its event trace, and whether it completed
(`false` models a TVM exception escaping, here only from the `Downcast`
calls of the `AttrStmt` handler). -/
structure VRes where
  evs : List Ev
  ok : Bool

/-- `ConstrVisitor`'s `VisitStmt` dispatch, reified as events.  Each
overridden handler pushes its guard facts exactly as in
`constr_visitor.h`; `Base::VisitStmt_(op)` is the `tir::StmtVisitor`
default (visit each child in field order).  On an escaping exception the
`Guard` destructors still pop (RAII), and later siblings are not visited. -/
def VisitStmt : Stmt → VRes
  | .letStmt t v value body =>
    -- guard on (var, value), then base visits value and body under it
    let rb := VisitStmt body
    ⟨.visit t :: .push (.bindValue v value) :: (VisitExpr value ++ rb.evs) ++ [.pop], rb.ok⟩
  | .attrStmt t node key value body =>
    match key, node with
    | .tilelangAssume, .exprRef p =>
      -- Downcast<PrimExpr>(op->node) succeeds; guard (expr, is_assume=true)
      let rb := VisitStmt body
      ⟨.visit t :: .push (.constr p true) :: (VisitExpr value ++ rb.evs) ++ [.pop], rb.ok⟩
    | .tilelangAssume, _ =>
      -- Downcast<PrimExpr>(op->node) throws before any guard is made
      ⟨[.visit t], false⟩
    | .threadExtent, .iterVarRef iv =>
      let rb := VisitStmt body
      ⟨.visit t :: .push (.bindRange iv.var ⟨mkZero, value⟩) :: (VisitExpr value ++ rb.evs) ++ [.pop], rb.ok⟩
    | .threadExtent, _ => ⟨[.visit t], false⟩
    | .virtualThread, .iterVarRef iv =>
      let rb := VisitStmt body
      ⟨.visit t :: .push (.bindRange iv.var ⟨mkZero, value⟩) :: (VisitExpr value ++ rb.evs) ++ [.pop], rb.ok⟩
    | .virtualThread, _ => ⟨[.visit t], false⟩
    | .otherAttr _, _ =>
      -- scope-transparent: plain base traversal
      let rb := VisitStmt body
      ⟨.visit t :: (VisitExpr value ++ rb.evs), rb.ok⟩
  | .assertStmt t cond msg body =>
    -- guard on condition, then base visits condition, message, body under it
    let rb := VisitStmt body
    ⟨.visit t :: .push (.constr cond false) :: (VisitExpr cond ++ VisitExpr msg ++ rb.evs) ++ [.pop], rb.ok⟩
  | .ifThenElse t cond then_case else_case =>
    -- the condition is not dispatched; each branch under its own guard
    let rt := VisitStmt then_case
    if rt.ok then
      match else_case with
      | none =>
        ⟨.visit t :: .push (.constr cond false) :: rt.evs ++ [.pop], true⟩
      | some el =>
        let re := VisitStmt el
        ⟨.visit t :: .push (.constr cond false) :: rt.evs ++ [.pop] ++
          .push (.constr (mkNot cond) false) :: re.evs ++ [.pop], re.ok⟩
    else
      ⟨.visit t :: .push (.constr cond false) :: rt.evs ++ [.pop], false⟩
  | .forS t v min extent kind body =>
    -- both branches of the ForKind test are byte-for-byte identical
    if kind = .parallel ∨ kind = .vectorized then
      let rb := VisitStmt body
      ⟨.visit t :: .push (.bindRange v ⟨min, extent⟩) :: .push (.constr (mkGt extent mkZero) false) ::
        (VisitExpr min ++ VisitExpr extent ++ rb.evs) ++ [.pop, .pop], rb.ok⟩
    else
      let rb := VisitStmt body
      ⟨.visit t :: .push (.bindRange v ⟨min, extent⟩) :: .push (.constr (mkGt extent mkZero) false) ::
        (VisitExpr min ++ VisitExpr extent ++ rb.evs) ++ [.pop, .pop], rb.ok⟩
  | .whileS t cond body =>
    -- only the body is dispatched, under a guard on the condition
    let rb := VisitStmt body
    ⟨.visit t :: .push (.constr cond false) :: rb.evs ++ [.pop], rb.ok⟩
  | .evaluate t value =>
    ⟨.visit t :: VisitExpr value, true⟩

end ConstrVisitor

namespace ConstrMutator

/-- Result of a mutator expression visit: the rewritten expression, the
fresh-identity counter afterwards, and the event trace. -/
structure MResE where
  out : PExpr
  fresh : Nat
  evs : List Ev

/-- Result of mutating an argument array. -/
structure MResL where
  outs : List PExpr
  fresh : Nat
  evs : List Ev

/-- Result of a mutator statement visit; `out = none` models a TVM
exception escaping (here only from the `Downcast` calls of the `AttrStmt`
handler). -/
structure MResS where
  out : Option Stmt
  fresh : Nat
  evs : List Ev

/-- Element-wise `same_as` between rewritten and original argument arrays. -/
def sameList : List PExpr → List PExpr → Bool
  | [], [] => true
  | a :: as_, b :: bs => sameAs a b && sameList as_ bs
  | _, _ => false

/-- The tail of `ConstrMutator::VisitIfThenElseExpr` after the three
recursive rewrites `rc`, `rtv`, `rfv` of `cond`, `tv`, `fv`: the guard
pushes/pops around the two branch rewrites, the `same_as` comparison of
each rewritten child with its original — and in both branches a freshly
constructed `tir::Select`, never the original node. -/
def mkIfThenElseRes (cond tv fv : PExpr) (rc rtv rfv : MResE) : MResE :=
  let evs := rc.evs ++ .push (.constr rc.out false) :: rtv.evs ++ [.pop] ++
    .push (.constr (mkNot rc.out) false) :: rfv.evs ++ [.pop]
  if sameAs rc.out cond && sameAs rtv.out tv && sameAs rfv.out fv then
    ⟨.select rfv.fresh cond tv fv, rfv.fresh + 1, evs⟩
  else
    ⟨.select rfv.fresh rc.out rtv.out rfv.out, rfv.fresh + 1, evs⟩

/-- The `tir::ExprMutator` default for a non-`if_then_else` call: rewrite
the arguments, reuse the original node when every argument is unchanged,
otherwise construct a new call with the same operator. -/
def callBase (t : Nat) (op : String) (args : List PExpr) (r : MResL) : MResE :=
  if sameList r.outs args then ⟨.call t op args, r.fresh, .visit t :: r.evs⟩
  else ⟨.call r.fresh op r.outs, r.fresh + 1, .visit t :: r.evs⟩

mutual
/-- `ConstrMutator`'s `VisitExpr` dispatch: rewritten node, fresh counter
and event trace.  Non-overridden nodes follow the `tir::ExprMutator`
defaults (rewrite children, reuse the node if all are `same_as` their
originals); `SelectNode` and `tir.if_then_else` calls are routed through
`VisitIfThenElseExpr`. -/
def VisitExpr : PExpr → Nat → MResE
  | .var v, n => ⟨.var v, n, [.visit v.tag]⟩
  | .imm t k, n => ⟨.imm t k, n, [.visit t]⟩
  | .add t a b, n =>
    let ra := VisitExpr a n
    let rb := VisitExpr b ra.fresh
    if sameAs ra.out a && sameAs rb.out b then ⟨.add t a b, rb.fresh, .visit t :: (ra.evs ++ rb.evs)⟩
    else ⟨.add rb.fresh ra.out rb.out, rb.fresh + 1, .visit t :: (ra.evs ++ rb.evs)⟩
  | .eqE t a b, n =>
    let ra := VisitExpr a n
    let rb := VisitExpr b ra.fresh
    if sameAs ra.out a && sameAs rb.out b then ⟨.eqE t a b, rb.fresh, .visit t :: (ra.evs ++ rb.evs)⟩
    else ⟨.eqE rb.fresh ra.out rb.out, rb.fresh + 1, .visit t :: (ra.evs ++ rb.evs)⟩
  | .geE t a b, n =>
    let ra := VisitExpr a n
    let rb := VisitExpr b ra.fresh
    if sameAs ra.out a && sameAs rb.out b then ⟨.geE t a b, rb.fresh, .visit t :: (ra.evs ++ rb.evs)⟩
    else ⟨.geE rb.fresh ra.out rb.out, rb.fresh + 1, .visit t :: (ra.evs ++ rb.evs)⟩
  | .ltE t a b, n =>
    let ra := VisitExpr a n
    let rb := VisitExpr b ra.fresh
    if sameAs ra.out a && sameAs rb.out b then ⟨.ltE t a b, rb.fresh, .visit t :: (ra.evs ++ rb.evs)⟩
    else ⟨.ltE rb.fresh ra.out rb.out, rb.fresh + 1, .visit t :: (ra.evs ++ rb.evs)⟩
  | .gtE t a b, n =>
    let ra := VisitExpr a n
    let rb := VisitExpr b ra.fresh
    if sameAs ra.out a && sameAs rb.out b then ⟨.gtE t a b, rb.fresh, .visit t :: (ra.evs ++ rb.evs)⟩
    else ⟨.gtE rb.fresh ra.out rb.out, rb.fresh + 1, .visit t :: (ra.evs ++ rb.evs)⟩
  | .andE t a b, n =>
    let ra := VisitExpr a n
    let rb := VisitExpr b ra.fresh
    if sameAs ra.out a && sameAs rb.out b then ⟨.andE t a b, rb.fresh, .visit t :: (ra.evs ++ rb.evs)⟩
    else ⟨.andE rb.fresh ra.out rb.out, rb.fresh + 1, .visit t :: (ra.evs ++ rb.evs)⟩
  | .notE t a, n =>
    let ra := VisitExpr a n
    if sameAs ra.out a then ⟨.notE t a, ra.fresh, .visit t :: ra.evs⟩
    else ⟨.notE ra.fresh ra.out, ra.fresh + 1, .visit t :: ra.evs⟩
  | .select t c tv fv, n =>
    let rc := VisitExpr c n
    let rtv := VisitExpr tv rc.fresh
    let rfv := VisitExpr fv rtv.fresh
    let r := mkIfThenElseRes c tv fv rc rtv rfv
    ⟨r.out, r.fresh, .visit t :: r.evs⟩
  | .call t op (a :: b :: c :: rest), n =>
    if op = "tir.if_then_else" then
      let rc := VisitExpr a n
      let rtv := VisitExpr b rc.fresh
      let rfv := VisitExpr c rtv.fresh
      let r := mkIfThenElseRes a b c rc rtv rfv
      ⟨r.out, r.fresh, .visit t :: r.evs⟩
    else
      let ra := VisitExpr a n
      let rb := VisitExpr b ra.fresh
      let rc := VisitExpr c rb.fresh
      let rs := VisitExprs rest rc.fresh
      callBase t op (a :: b :: c :: rest)
        ⟨ra.out :: rb.out :: rc.out :: rs.outs, rs.fresh, ra.evs ++ rb.evs ++ rc.evs ++ rs.evs⟩
  | .call t op args, n => callBase t op args (VisitExprs args n)

/-- The `tir::ExprMutator` default for an argument array: rewrite each
element in order, threading the fresh counter. -/
def VisitExprs : List PExpr → Nat → MResL
  | [], n => ⟨[], n, []⟩
  | e :: es, n =>
    let r := VisitExpr e n
    let rs := VisitExprs es r.fresh
    ⟨r.out :: rs.outs, rs.fresh, r.evs ++ rs.evs⟩
end

/-- The tail of the `AttrStmt` handler: the `same_as` check and the
reuse-or-reconstruct (`AttrStmt(op->node, op->attr_key, value, body)`). -/
def finishAttr (t : Nat) (node : ObjRef) (key : AttrKey) (value : PExpr) (body : Stmt)
    (newValue : PExpr) (newBody : Stmt) (fresh : Nat) (evs : List Ev) : MResS :=
  if sameAs newValue value && sameAsS newBody body then
    ⟨some (.attrStmt t node key value body), fresh, evs⟩
  else
    ⟨some (.attrStmt fresh node key newValue newBody), fresh + 1, evs⟩

/-- The body of the `ForNode` handler shared (byte-for-byte) by the two
branches of the `ForKind` test: guards from the rewritten bounds, the body
rewrite `rb`, and the reuse-or-reconstruct
(`For(op->loop_var, min, extent, op->kind, body, ...)`). -/
def finishFor (t : Nat) (v : VarT) (min extent : PExpr) (kind : ForKind) (body : Stmt)
    (rm re : MResE) (rb : MResS) : MResS :=
  let evs := .visit t :: rm.evs ++ re.evs ++
    .push (.bindRange v ⟨rm.out, re.out⟩) :: .push (.constr (mkGt re.out mkZero) false) ::
      rb.evs ++ [.pop, .pop]
  match rb.out with
  | none => ⟨none, rb.fresh, evs⟩
  | some b' =>
    if sameAs rm.out min && sameAs re.out extent && sameAsS b' body then
      ⟨some (.forS t v min extent kind body), rb.fresh, evs⟩
    else
      ⟨some (.forS rb.fresh v rm.out re.out kind b'), rb.fresh + 1, evs⟩

/-- `ConstrMutator`'s `VisitStmt` dispatch: rewritten statement (`none` on
an escaping exception), fresh counter, event trace.  Each handler follows
`constr_mutator.h`; the RAII `Guard` pops appear in the trace exactly where
the destructors run, also on the unwind path. -/
def VisitStmt : Stmt → Nat → MResS
  | .letStmt t v value body, n =>
    let rv := VisitExpr value n
    let rb := VisitStmt body rv.fresh
    let evs := .visit t :: rv.evs ++ .push (.bindValue v rv.out) :: rb.evs ++ [.pop]
    match rb.out with
    | none => ⟨none, rb.fresh, evs⟩
    | some b' =>
      if sameAs rv.out value && sameAsS b' body then
        ⟨some (.letStmt t v value body), rb.fresh, evs⟩
      else ⟨some (.letStmt rb.fresh v rv.out b'), rb.fresh + 1, evs⟩
  | .attrStmt t node key value body, n =>
    -- value and body are rewritten first, with no guard active
    let rv := VisitExpr value n
    let rb := VisitStmt body rv.fresh
    match rb.out with
    | none => ⟨none, rb.fresh, .visit t :: rv.evs ++ rb.evs⟩
    | some b' =>
      -- only now is the guard made, and its scope closes immediately
      match key, node with
      | .tilelangAssume, .exprRef p =>
        finishAttr t node key value body rv.out b' rb.fresh
          (.visit t :: rv.evs ++ rb.evs ++ [.push (.constr p true), .pop])
      | .tilelangAssume, _ => ⟨none, rb.fresh, .visit t :: rv.evs ++ rb.evs⟩
      | .threadExtent, .iterVarRef iv =>
        finishAttr t node key value body rv.out b' rb.fresh
          (.visit t :: rv.evs ++ rb.evs ++ [.push (.bindRange iv.var ⟨mkZero, rv.out⟩), .pop])
      | .threadExtent, _ => ⟨none, rb.fresh, .visit t :: rv.evs ++ rb.evs⟩
      | .virtualThread, .iterVarRef iv =>
        finishAttr t node key value body rv.out b' rb.fresh
          (.visit t :: rv.evs ++ rb.evs ++ [.push (.bindRange iv.var ⟨mkZero, rv.out⟩), .pop])
      | .virtualThread, _ => ⟨none, rb.fresh, .visit t :: rv.evs ++ rb.evs⟩
      | .otherAttr _, _ =>
        finishAttr t node key value body rv.out b' rb.fresh
          (.visit t :: rv.evs ++ rb.evs)
  | .assertStmt t cond msg body, n =>
    let rc := VisitExpr cond n
    -- the guard on the rewritten condition spans message and body
    let rm := VisitExpr msg rc.fresh
    let rb := VisitStmt body rm.fresh
    let evs := .visit t :: rc.evs ++ .push (.constr rc.out false) :: (rm.evs ++ rb.evs) ++ [.pop]
    match rb.out with
    | none => ⟨none, rb.fresh, evs⟩
    | some b' =>
      if sameAs rc.out cond && sameAs rm.out msg && sameAsS b' body then
        ⟨some (.assertStmt t cond msg body), rb.fresh, evs⟩
      else ⟨some (.assertStmt rb.fresh rc.out rm.out b'), rb.fresh + 1, evs⟩
  | .ifThenElse t cond then_case none, n =>
    let rc := VisitExpr cond n
    let rt := VisitStmt then_case rc.fresh
    let thenEvs := .visit t :: rc.evs ++ .push (.constr rc.out false) :: rt.evs ++ [.pop]
    match rt.out with
    | none => ⟨none, rt.fresh, thenEvs⟩
    | some th' =>
      if sameAs rc.out cond && sameAsS th' then_case then
        ⟨some (.ifThenElse t cond then_case none), rt.fresh, thenEvs⟩
      else ⟨some (.ifThenElse rt.fresh rc.out th' none), rt.fresh + 1, thenEvs⟩
  | .ifThenElse t cond then_case (some el), n =>
    let rc := VisitExpr cond n
    let rt := VisitStmt then_case rc.fresh
    let thenEvs := .visit t :: rc.evs ++ .push (.constr rc.out false) :: rt.evs ++ [.pop]
    match rt.out with
    | none => ⟨none, rt.fresh, thenEvs⟩
    | some th' =>
      let re := VisitStmt el rt.fresh
      let evs := thenEvs ++ .push (.constr (mkNot rc.out) false) :: re.evs ++ [.pop]
      match re.out with
      | none => ⟨none, re.fresh, evs⟩
      | some el' =>
        if sameAs rc.out cond && sameAsS th' then_case && sameAsS el' el then
          ⟨some (.ifThenElse t cond then_case (some el)), re.fresh, evs⟩
        else ⟨some (.ifThenElse re.fresh rc.out th' (some el')), re.fresh + 1, evs⟩
  | .forS t v min extent kind body, n =>
    let rm := VisitExpr min n
    let re := VisitExpr extent rm.fresh
    -- both branches of the ForKind test are byte-for-byte identical
    if kind = .parallel ∨ kind = .vectorized then
      let rb := VisitStmt body re.fresh
      finishFor t v min extent kind body rm re rb
    else
      let rb := VisitStmt body re.fresh
      finishFor t v min extent kind body rm re rb
  | .whileS t cond body, n =>
    let rc := VisitExpr cond n
    let rb := VisitStmt body rc.fresh
    let evs := .visit t :: rc.evs ++ .push (.constr rc.out false) :: rb.evs ++ [.pop]
    match rb.out with
    | none => ⟨none, rb.fresh, evs⟩
    | some b' =>
      if sameAs rc.out cond && sameAsS b' body then
        ⟨some (.whileS t cond body), rb.fresh, evs⟩
      else ⟨some (.whileS rb.fresh rc.out b'), rb.fresh + 1, evs⟩
  | .evaluate t value, n =>
    let rv := VisitExpr value n
    if sameAs rv.out value then ⟨some (.evaluate t value), rv.fresh, .visit t :: rv.evs⟩
    else ⟨some (.evaluate rv.fresh rv.out), rv.fresh + 1, .visit t :: rv.evs⟩

end ConstrMutator

/-- A concrete `Select` node: `select(c, 1, 2)` with identities 5 (the
select), 1 (the condition variable), 2 and 3 (the branch literals). -/
def exprSelect : PExpr := .select 5 (.var ⟨1, "c"⟩) (.imm 2 1) (.imm 3 2)

/-- The same conditional as a `tir.if_then_else` call, with identity 6. -/
def exprIteCall : PExpr := .call 6 "tir.if_then_else" [.var ⟨1, "c"⟩, .imm 2 1, .imm 3 2]

/-- A concrete assume-attribute statement: identities 20 (the attr node),
5 (the assumed expression `p`), 21 (the attribute value), 22 (the body),
4 (the variable inside the body). -/
def stmtAssume : Stmt :=
  .attrStmt 20 (.exprRef (.var ⟨5, "p"⟩)) .tilelangAssume (.imm 21 1)
    (.evaluate 22 (.var ⟨4, "x"⟩))

/-- A concrete assertion statement: identities 30 (the assert node),
6 (the condition variable), 31 (the message), 32/33 (the body). -/
def stmtAssert : Stmt :=
  .assertStmt 30 (.var ⟨6, "c"⟩) (.imm 31 0) (.evaluate 32 (.imm 33 1))

@[simp]
theorem replay_nil (s : List Constr) : replay [] s = s := rfl

@[simp]
theorem replay_cons (e : Ev) (evs : List Ev) (s : List Constr) :
    replay (e :: evs) s = replay evs (stepEv s e) := rfl

@[simp]
theorem replay_append (a b : List Ev) (s : List Constr) :
    replay (a ++ b) s = replay b (replay a s) :=
  List.foldl_append _ _ _ _

@[simp]
theorem stepEv_push (s : List Constr) (c : Constr) : stepEv s (.push c) = s ++ [c] := rfl

@[simp]
theorem stepEv_pop (s : List Constr) : stepEv s .pop = s.dropLast := rfl

@[simp]
theorem stepEv_visit (s : List Constr) (n : Nat) : stepEv s (.visit n) = s := rfl

@[simp]
theorem dropLast_snoc (s : List Constr) (c : Constr) : (s ++ [c]).dropLast = s := by
  simp

theorem replay_iteEvents (cond : PExpr) (etv efv : List Ev)
    (htv : ∀ s, replay etv s = s) (hfv : ∀ s, replay efv s = s) (s : List Constr) :
    replay (ConstrVisitor.iteEvents cond etv efv) s = s := by
  simp [ConstrVisitor.iteEvents, htv, hfv]

mutual
/-- The read-only walker's expression traversal balances its pushes and
pops: replaying its events leaves any stack unchanged. -/
theorem replay_VE : ∀ (e : PExpr) (s : List Constr),
    replay (ConstrVisitor.VisitExpr e) s = s
  | .var v, s => by simp [ConstrVisitor.VisitExpr]
  | .imm t k, s => by simp [ConstrVisitor.VisitExpr]
  | .add t a b, s => by
    simp [ConstrVisitor.VisitExpr, replay_VE a, replay_VE b]
  | .eqE t a b, s => by
    simp [ConstrVisitor.VisitExpr, replay_VE a, replay_VE b]
  | .geE t a b, s => by
    simp [ConstrVisitor.VisitExpr, replay_VE a, replay_VE b]
  | .ltE t a b, s => by
    simp [ConstrVisitor.VisitExpr, replay_VE a, replay_VE b]
  | .gtE t a b, s => by
    simp [ConstrVisitor.VisitExpr, replay_VE a, replay_VE b]
  | .andE t a b, s => by
    simp [ConstrVisitor.VisitExpr, replay_VE a, replay_VE b]
  | .notE t a, s => by
    simp [ConstrVisitor.VisitExpr, replay_VE a]
  | .select t c tv fv, s => by
    rw [ConstrVisitor.VisitExpr, replay_cons]
    exact replay_iteEvents c _ _ (replay_VE tv) (replay_VE fv) _
  | .call t op [], s => by simp [ConstrVisitor.VisitExpr, ConstrVisitor.VisitExprs]
  | .call t op [a], s => by
    simp [ConstrVisitor.VisitExpr, ConstrVisitor.VisitExprs, replay_append,
      replay_VE a]
  | .call t op [a, b], s => by
    simp [ConstrVisitor.VisitExpr, ConstrVisitor.VisitExprs, replay_append,
      replay_VE a, replay_VE b]
  | .call t op (a :: b :: c :: rest), s => by
    rw [ConstrVisitor.VisitExpr]
    by_cases h : op = "tir.if_then_else"
    · rw [if_pos h, replay_cons]
      exact replay_iteEvents a _ _ (replay_VE b) (replay_VE c) _
    · rw [if_neg h, replay_cons]
      simp [replay_append, replay_VE a, replay_VE b, replay_VE c, replay_VEs rest]
/-- Balance for the argument-array traversal. -/
theorem replay_VEs : ∀ (es : List PExpr) (s : List Constr),
    replay (ConstrVisitor.VisitExprs es) s = s
  | [], s => by simp [ConstrVisitor.VisitExprs]
  | e :: es, s => by
    simp [ConstrVisitor.VisitExprs, replay_append, replay_VE e, replay_VEs es]
end

/-- The read-only walker's statement traversal balances its pushes and
pops, also on the exception path. -/
theorem replay_VS : ∀ (t : Stmt) (s : List Constr),
    replay (ConstrVisitor.VisitStmt t).evs s = s
  | .letStmt t v value body, s => by
    simp [ConstrVisitor.VisitStmt, replay_VE value,
      replay_VS body]
  | .attrStmt t node key value body, s => by
    cases key with
    | tilelangAssume =>
      cases node with
      | exprRef p =>
        simp [ConstrVisitor.VisitStmt, replay_VE value,
          replay_VS body]
      | iterVarRef iv => simp [ConstrVisitor.VisitStmt]
      | otherRef => simp [ConstrVisitor.VisitStmt]
    | threadExtent =>
      cases node with
      | exprRef p => simp [ConstrVisitor.VisitStmt]
      | iterVarRef iv =>
        simp [ConstrVisitor.VisitStmt, replay_VE value,
          replay_VS body]
      | otherRef => simp [ConstrVisitor.VisitStmt]
    | virtualThread =>
      cases node with
      | exprRef p => simp [ConstrVisitor.VisitStmt]
      | iterVarRef iv =>
        simp [ConstrVisitor.VisitStmt, replay_VE value,
          replay_VS body]
      | otherRef => simp [ConstrVisitor.VisitStmt]
    | otherAttr name =>
      simp [ConstrVisitor.VisitStmt, replay_VE value,
        replay_VS body]
  | .assertStmt t cond msg body, s => by
    simp [ConstrVisitor.VisitStmt, replay_VE cond,
      replay_VE msg, replay_VS body]
  | .ifThenElse t cond then_case else_case, s => by
    by_cases h : (ConstrVisitor.VisitStmt then_case).ok
    · cases else_case with
      | none =>
        simp [ConstrVisitor.VisitStmt, h, replay_append,
          replay_VS then_case]
      | some el =>
        simp [ConstrVisitor.VisitStmt, h, replay_append,
          replay_VS then_case, replay_VS el]
    · cases else_case with
      | none =>
        simp [ConstrVisitor.VisitStmt, h, replay_append,
          replay_VS then_case]
      | some el =>
        simp [ConstrVisitor.VisitStmt, h, replay_append,
          replay_VS then_case]
  | .forS t v min extent kind body, s => by
    by_cases h : kind = .parallel ∨ kind = .vectorized
    · simp [ConstrVisitor.VisitStmt, h, replay_VE min,
        replay_VE extent, replay_VS body]
    · simp [ConstrVisitor.VisitStmt, h, replay_VE min,
        replay_VE extent, replay_VS body]
  | .whileS t cond body, s => by
    simp [ConstrVisitor.VisitStmt, replay_VS body]
  | .evaluate t value, s => by
    simp [ConstrVisitor.VisitStmt, replay_VE value]

@[simp]
theorem MResE_evs_ite (P : Prop) [Decidable P] (a b : ConstrMutator.MResE) :
    (if P then a else b).evs = if P then a.evs else b.evs :=
  apply_ite ConstrMutator.MResE.evs P a b

@[simp]
theorem MResE_fresh_ite (P : Prop) [Decidable P] (a b : ConstrMutator.MResE) :
    (if P then a else b).fresh = if P then a.fresh else b.fresh :=
  apply_ite ConstrMutator.MResE.fresh P a b

@[simp]
theorem MResS_evs_ite (P : Prop) [Decidable P] (a b : ConstrMutator.MResS) :
    (if P then a else b).evs = if P then a.evs else b.evs :=
  apply_ite ConstrMutator.MResS.evs P a b

@[simp]
theorem MResS_fresh_ite (P : Prop) [Decidable P] (a b : ConstrMutator.MResS) :
    (if P then a else b).fresh = if P then a.fresh else b.fresh :=
  apply_ite ConstrMutator.MResS.fresh P a b

theorem mkIfThenElseRes_evs (cond tv fv : PExpr) (rc rtv rfv : ConstrMutator.MResE) :
    (ConstrMutator.mkIfThenElseRes cond tv fv rc rtv rfv).evs =
      rc.evs ++ .push (.constr rc.out false) :: rtv.evs ++ [.pop] ++
        .push (.constr (mkNot rc.out) false) :: rfv.evs ++ [.pop] := by
  unfold ConstrMutator.mkIfThenElseRes
  split <;> rfl

theorem callBase_evs (t : Nat) (op : String) (args : List PExpr) (r : ConstrMutator.MResL) :
    (ConstrMutator.callBase t op args r).evs = .visit t :: r.evs := by
  unfold ConstrMutator.callBase
  split <;> rfl

theorem finishAttr_evs (t : Nat) (node : ObjRef) (key : AttrKey) (value : PExpr)
    (body : Stmt) (newValue : PExpr) (newBody : Stmt) (fresh : Nat) (evs : List Ev) :
    (ConstrMutator.finishAttr t node key value body newValue newBody fresh evs).evs = evs := by
  unfold ConstrMutator.finishAttr
  split <;> rfl

theorem finishFor_evs (t : Nat) (v : VarT) (min extent : PExpr) (kind : ForKind)
    (body : Stmt) (rm re : ConstrMutator.MResE) (rb : ConstrMutator.MResS) :
    (ConstrMutator.finishFor t v min extent kind body rm re rb).evs =
      .visit t :: rm.evs ++ re.evs ++
        .push (.bindRange v ⟨rm.out, re.out⟩) :: .push (.constr (mkGt re.out mkZero) false) ::
          rb.evs ++ [.pop, .pop] := by
  simp only [ConstrMutator.finishFor]
  cases h : rb.out <;> simp [h]

mutual
/-- The rewriting walker's expression traversal balances its pushes and
pops: replaying its events leaves any stack unchanged. -/
theorem replay_ME : ∀ (e : PExpr) (n : Nat) (s : List Constr),
    replay (ConstrMutator.VisitExpr e n).evs s = s
  | .var v, n, s => by simp [ConstrMutator.VisitExpr]
  | .imm t k, n, s => by simp [ConstrMutator.VisitExpr]
  | .add t a b, n, s => by
    simp [ConstrMutator.VisitExpr, replay_ME a, replay_ME b]
  | .eqE t a b, n, s => by
    simp [ConstrMutator.VisitExpr, replay_ME a, replay_ME b]
  | .geE t a b, n, s => by
    simp [ConstrMutator.VisitExpr, replay_ME a, replay_ME b]
  | .ltE t a b, n, s => by
    simp [ConstrMutator.VisitExpr, replay_ME a, replay_ME b]
  | .gtE t a b, n, s => by
    simp [ConstrMutator.VisitExpr, replay_ME a, replay_ME b]
  | .andE t a b, n, s => by
    simp [ConstrMutator.VisitExpr, replay_ME a, replay_ME b]
  | .notE t a, n, s => by
    simp [ConstrMutator.VisitExpr, replay_ME a]
  | .select t c tv fv, n, s => by
    simp [ConstrMutator.VisitExpr, mkIfThenElseRes_evs, replay_ME c, replay_ME tv,
      replay_ME fv]
  | .call t op [], n, s => by
    simp [ConstrMutator.VisitExpr, ConstrMutator.VisitExprs, callBase_evs]
  | .call t op [a], n, s => by
    simp [ConstrMutator.VisitExpr, ConstrMutator.VisitExprs, callBase_evs, replay_ME a]
  | .call t op [a, b], n, s => by
    simp [ConstrMutator.VisitExpr, ConstrMutator.VisitExprs, callBase_evs, replay_ME a,
      replay_ME b]
  | .call t op (a :: b :: c :: rest), n, s => by
    rw [ConstrMutator.VisitExpr]
    by_cases h : op = "tir.if_then_else"
    · simp only [if_pos h]
      simp [mkIfThenElseRes_evs, replay_ME a, replay_ME b, replay_ME c]
    · simp only [if_neg h]
      simp [callBase_evs, replay_ME a, replay_ME b, replay_ME c, replay_MEs rest]
/-- Balance for the mutator's argument-array traversal. -/
theorem replay_MEs : ∀ (es : List PExpr) (n : Nat) (s : List Constr),
    replay (ConstrMutator.VisitExprs es n).evs s = s
  | [], n, s => by simp [ConstrMutator.VisitExprs]
  | e :: es, n, s => by
    simp [ConstrMutator.VisitExprs, replay_ME e, replay_MEs es]
end

/-- The rewriting walker's statement traversal balances its pushes and
pops, also on the exception path. -/
theorem replay_MS : ∀ (t : Stmt) (n : Nat) (s : List Constr),
    replay (ConstrMutator.VisitStmt t n).evs s = s
  | .letStmt t v value body, n, s => by
    simp only [ConstrMutator.VisitStmt]
    cases h : (ConstrMutator.VisitStmt body (ConstrMutator.VisitExpr value n).fresh).out <;>
      simp [h, replay_ME value, replay_MS body]
  | .attrStmt t node key value body, n, s => by
    simp only [ConstrMutator.VisitStmt]
    cases h : (ConstrMutator.VisitStmt body (ConstrMutator.VisitExpr value n).fresh).out with
    | none => simp [h, replay_ME value, replay_MS body]
    | some b' =>
      cases key <;> cases node <;>
        simp [h, finishAttr_evs, replay_ME value, replay_MS body]
  | .assertStmt t cond msg body, n, s => by
    simp only [ConstrMutator.VisitStmt]
    cases h : (ConstrMutator.VisitStmt body
        (ConstrMutator.VisitExpr msg (ConstrMutator.VisitExpr cond n).fresh).fresh).out <;>
      simp [h, replay_ME cond, replay_ME msg, replay_MS body]
  | .ifThenElse t cond then_case none, n, s => by
    simp only [ConstrMutator.VisitStmt]
    cases h : (ConstrMutator.VisitStmt then_case (ConstrMutator.VisitExpr cond n).fresh).out <;>
      simp [h, replay_ME cond, replay_MS then_case]
  | .ifThenElse t cond then_case (some el), n, s => by
    simp only [ConstrMutator.VisitStmt]
    cases h : (ConstrMutator.VisitStmt then_case (ConstrMutator.VisitExpr cond n).fresh).out with
    | none => simp [h, replay_ME cond, replay_MS then_case]
    | some th' =>
      cases h2 : (ConstrMutator.VisitStmt el
          (ConstrMutator.VisitStmt then_case (ConstrMutator.VisitExpr cond n).fresh).fresh).out <;>
        simp [h, h2, replay_ME cond, replay_MS then_case, replay_MS el]
  | .forS t v min extent kind body, n, s => by
    simp only [ConstrMutator.VisitStmt]
    by_cases h : kind = .parallel ∨ kind = .vectorized <;>
      simp [h, finishFor_evs, replay_ME min, replay_ME extent, replay_MS body]
  | .whileS t cond body, n, s => by
    simp only [ConstrMutator.VisitStmt]
    cases h : (ConstrMutator.VisitStmt body (ConstrMutator.VisitExpr cond n).fresh).out <;>
      simp [h, replay_ME cond, replay_MS body]
  | .evaluate t value, n, s => by
    simp [ConstrMutator.VisitStmt, replay_ME value]

theorem populate_foldl (cs : List Constr) (l : List AEntry) :
    cs.foldl (fun acc c => c.Populate acc) ⟨l⟩ = ⟨l ++ cs.map Constr.entryOf⟩ := by
  induction cs generalizing l with
  | nil => simp
  | cons c cs ih =>
    have h : c.Populate ⟨l⟩ = ⟨l ++ [c.entryOf]⟩ := by cases c <;> rfl
    rw [List.foldl_cons, h, ih]
    simp

/-- C1: the rewriting walker does NOT return the original object for a
`Select` or a `tir.if_then_else` call with unchanged children.  The identity
rewrite of `exprSelect` (no leaf changes, so every child comes back
`same_as` itself) returns a freshly constructed `Select` node whose identity
(100, the first fresh tag) differs from the input's (5); the
`tir.if_then_else` call comes back not merely fresh but as a node of a
different kind (a `Select`). -/
theorem c1_select_reconstructed :
    (ConstrMutator.VisitExpr exprSelect 100).out =
      .select 100 (.var ⟨1, "c"⟩) (.imm 2 1) (.imm 3 2)
    ∧ (ConstrMutator.VisitExpr exprSelect 100).out.tag ≠ exprSelect.tag
    ∧ (ConstrMutator.VisitExpr exprIteCall 100).out =
      .select 100 (.var ⟨1, "c"⟩) (.imm 2 1) (.imm 3 2)
    ∧ (ConstrMutator.VisitExpr exprIteCall 100).out.tag ≠ exprIteCall.tag :=
  ⟨rfl, by decide, rfl, by decide⟩

/-- C2: in the rewriting walker the assume fact is NOT on the stack while
the attribute's body is rewritten.  Concretely (first two conjuncts): every
node of `stmtAssume` — including the body nodes 22 and 4 — is dispatched
with an empty stack, and the fact `BooleanFact(p, is_assume=true)` is
pushed only after the body's events and popped immediately.  The last
conjunct states this in general for any assume-attribute node: the guard
events follow the value and body events. -/
theorem c2_attr_fact_not_active :
    (visitsWithStacks (ConstrMutator.VisitStmt stmtAssume 100).evs [] =
      [(20, []), (21, []), (22, []), (4, [])])
    ∧ ((ConstrMutator.VisitStmt stmtAssume 100).evs =
      [.visit 20, .visit 21, .visit 22, .visit 4,
        .push (.constr (.var ⟨5, "p"⟩) true), .pop])
    ∧ ∀ (tg : Nat) (p value : PExpr) (body : Stmt) (n : Nat),
      (ConstrMutator.VisitStmt (.attrStmt tg (.exprRef p) .tilelangAssume value body) n).evs =
        .visit tg :: (ConstrMutator.VisitExpr value n).evs ++
          (ConstrMutator.VisitStmt body (ConstrMutator.VisitExpr value n).fresh).evs ++
          (if (ConstrMutator.VisitStmt body (ConstrMutator.VisitExpr value n).fresh).out.isSome then
            [.push (.constr p true), .pop] else []) := by
  refine ⟨rfl, rfl, fun tg p value body n => ?_⟩
  simp only [ConstrMutator.VisitStmt]
  cases h : (ConstrMutator.VisitStmt body (ConstrMutator.VisitExpr value n).fresh).out <;>
    simp [h, finishAttr_evs]

/-- C3: the read-only walker never dispatches the condition of a
conditional-value node: for `exprSelect` (condition: the variable with
identity 1) the visited nodes are exactly the select node and the two
branch literals, and likewise for the `tir.if_then_else` call form — the
condition is visited zero times, not once. -/
theorem c3_condition_never_visited :
    visitedTags (ConstrVisitor.VisitExpr exprSelect) = [5, 2, 3]
    ∧ (1 : Nat) ∉ visitedTags (ConstrVisitor.VisitExpr exprSelect)
    ∧ visitedTags (ConstrVisitor.VisitExpr exprIteCall) = [6, 2, 3]
    ∧ (1 : Nat) ∉ visitedTags (ConstrVisitor.VisitExpr exprIteCall) :=
  ⟨rfl, by decide, rfl, by decide⟩

/-- C4 counterexample: in the read-only walker, the asserted condition (node
identity 6) and the message (31) of `stmtAssert` are each dispatched exactly
once, and at that moment the fact `condition` IS on the stack — refuting
the claim that they are visited with no fact pushed for the assertion. -/
theorem c4_counterexample :
    stacksAt 6 (visitsWithStacks (ConstrVisitor.VisitStmt stmtAssert).evs []) =
      [[Constr.constr (.var ⟨6, "c"⟩) false]]
    ∧ stacksAt 31 (visitsWithStacks (ConstrVisitor.VisitStmt stmtAssert).evs []) =
      [[Constr.constr (.var ⟨6, "c"⟩) false]] :=
  ⟨rfl, rfl⟩

/-- C4 (amended): for an assertion statement, the read-only walker pushes
the fact `condition` first and visits condition, message and body all under
it; the rewriting walker rewrites the condition with no fact pushed (the
stack stays at `s` throughout) and rewrites message and body under the fact
built from the rewritten condition. -/
theorem c4_assert_scoping (tg : Nat) (cond msg : PExpr) (body : Stmt) (n : Nat)
    (s : List Constr) :
    ((ConstrVisitor.VisitStmt (.assertStmt tg cond msg body)).evs =
      .visit tg :: .push (.constr cond false) ::
        (ConstrVisitor.VisitExpr cond ++ ConstrVisitor.VisitExpr msg ++
          (ConstrVisitor.VisitStmt body).evs) ++ [.pop])
    ∧ ((ConstrMutator.VisitStmt (.assertStmt tg cond msg body) n).evs =
      .visit tg :: (ConstrMutator.VisitExpr cond n).evs ++
        .push (.constr (ConstrMutator.VisitExpr cond n).out false) ::
          ((ConstrMutator.VisitExpr msg (ConstrMutator.VisitExpr cond n).fresh).evs ++
            (ConstrMutator.VisitStmt body
              (ConstrMutator.VisitExpr msg (ConstrMutator.VisitExpr cond n).fresh).fresh).evs) ++
          [.pop])
    ∧ (replay (.visit tg :: (ConstrMutator.VisitExpr cond n).evs) s = s)
    ∧ (replay (.visit tg :: (ConstrMutator.VisitExpr cond n).evs ++
        [.push (.constr (ConstrMutator.VisitExpr cond n).out false)]) s =
        s ++ [.constr (ConstrMutator.VisitExpr cond n).out false]) := by
  refine ⟨rfl, ?_, ?_, ?_⟩
  · simp only [ConstrMutator.VisitStmt]
    cases h : (ConstrMutator.VisitStmt body
        (ConstrMutator.VisitExpr msg (ConstrMutator.VisitExpr cond n).fresh).fresh).out <;>
      simp [h]
  · simp [replay_ME cond]
  · simp [replay_ME cond]

theorem finishFor_fresh (t : Nat) (v : VarT) (min extent : PExpr) (k k' : ForKind)
    (body : Stmt) (rm re : ConstrMutator.MResE) (rb : ConstrMutator.MResS) :
    (ConstrMutator.finishFor t v min extent k body rm re rb).fresh =
      (ConstrMutator.finishFor t v min extent k' body rm re rb).fresh := by
  simp only [ConstrMutator.finishFor]
  cases h : rb.out <;> simp [h]

theorem MS_forS_eq (tg : Nat) (v : VarT) (m e : PExpr) (k : ForKind) (b : Stmt) (n : Nat) :
    ConstrMutator.VisitStmt (.forS tg v m e k b) n =
      ConstrMutator.finishFor tg v m e k b (ConstrMutator.VisitExpr m n)
        (ConstrMutator.VisitExpr e (ConstrMutator.VisitExpr m n).fresh)
        (ConstrMutator.VisitStmt b
          (ConstrMutator.VisitExpr e (ConstrMutator.VisitExpr m n).fresh).fresh) := by
  by_cases h : k = .parallel ∨ k = .vectorized <;> simp [ConstrMutator.VisitStmt, h]

/-- C5: mutual exclusion at a branch point, in both walkers and for both
branch-point forms.  For each form the trace decomposes into a then-phase
followed by an else-phase, and replaying the then-phase (which ends with
the guard's pop) returns the stack to exactly the entry stack `s` — so the
fact pushed for the true/then branch is popped before the fact for the
false/else branch is pushed, and the two are never simultaneously on the
stack. -/
theorem c5_mutual_exclusion (tg : Nat) (c tv fv : PExpr) (th el : Stmt)
    (n : Nat) (s : List Constr) :
    -- read-only walker, conditional value
    (ConstrVisitor.VisitExpr (.select tg c tv fv) =
      (.visit tg :: .push (.constr c false) :: ConstrVisitor.VisitExpr tv ++ [.pop]) ++
        (.push (.constr (mkNot c) false) :: ConstrVisitor.VisitExpr fv ++ [.pop]))
    ∧ (replay (.visit tg :: .push (.constr c false) :: ConstrVisitor.VisitExpr tv ++ [.pop]) s = s)
    -- read-only walker, if/else statement
    ∧ ((ConstrVisitor.VisitStmt (.ifThenElse tg c th (some el))).evs =
      (.visit tg :: .push (.constr c false) :: (ConstrVisitor.VisitStmt th).evs ++ [.pop]) ++
        (if (ConstrVisitor.VisitStmt th).ok then
          .push (.constr (mkNot c) false) :: (ConstrVisitor.VisitStmt el).evs ++ [.pop]
        else []))
    ∧ (replay (.visit tg :: .push (.constr c false) :: (ConstrVisitor.VisitStmt th).evs ++ [.pop]) s = s)
    -- rewriting walker, conditional value
    ∧ ((ConstrMutator.VisitExpr (.select tg c tv fv) n).evs =
      (.visit tg :: (ConstrMutator.VisitExpr c n).evs ++
        .push (.constr (ConstrMutator.VisitExpr c n).out false) ::
          (ConstrMutator.VisitExpr tv (ConstrMutator.VisitExpr c n).fresh).evs ++ [.pop]) ++
        (.push (.constr (mkNot (ConstrMutator.VisitExpr c n).out) false) ::
          (ConstrMutator.VisitExpr fv
            (ConstrMutator.VisitExpr tv (ConstrMutator.VisitExpr c n).fresh).fresh).evs ++ [.pop]))
    ∧ (replay (.visit tg :: (ConstrMutator.VisitExpr c n).evs ++
        .push (.constr (ConstrMutator.VisitExpr c n).out false) ::
          (ConstrMutator.VisitExpr tv (ConstrMutator.VisitExpr c n).fresh).evs ++ [.pop]) s = s)
    -- rewriting walker, if/else statement
    ∧ ((ConstrMutator.VisitStmt (.ifThenElse tg c th (some el)) n).evs =
      (.visit tg :: (ConstrMutator.VisitExpr c n).evs ++
        .push (.constr (ConstrMutator.VisitExpr c n).out false) ::
          (ConstrMutator.VisitStmt th (ConstrMutator.VisitExpr c n).fresh).evs ++ [.pop]) ++
        (if (ConstrMutator.VisitStmt th (ConstrMutator.VisitExpr c n).fresh).out.isSome then
          .push (.constr (mkNot (ConstrMutator.VisitExpr c n).out) false) ::
            (ConstrMutator.VisitStmt el
              (ConstrMutator.VisitStmt th (ConstrMutator.VisitExpr c n).fresh).fresh).evs ++ [.pop]
        else []))
    ∧ (replay (.visit tg :: (ConstrMutator.VisitExpr c n).evs ++
        .push (.constr (ConstrMutator.VisitExpr c n).out false) ::
          (ConstrMutator.VisitStmt th (ConstrMutator.VisitExpr c n).fresh).evs ++ [.pop]) s = s) := by
  refine ⟨?_, ?_, ?_, ?_, ?_, ?_, ?_, ?_⟩
  · simp [ConstrVisitor.VisitExpr, ConstrVisitor.iteEvents]
  · simp [replay_VE tv]
  · by_cases h : (ConstrVisitor.VisitStmt th).ok <;> simp [ConstrVisitor.VisitStmt, h]
  · simp [replay_VS th]
  · simp [ConstrMutator.VisitExpr, mkIfThenElseRes_evs]
  · simp [replay_ME c, replay_ME tv]
  · cases h : (ConstrMutator.VisitStmt th (ConstrMutator.VisitExpr c n).fresh).out with
    | none => simp [ConstrMutator.VisitStmt, h]
    | some th' =>
      cases h2 : (ConstrMutator.VisitStmt el
          (ConstrMutator.VisitStmt th (ConstrMutator.VisitExpr c n).fresh).fresh).out <;>
        simp [ConstrMutator.VisitStmt, h, h2]
  · simp [replay_ME c, replay_MS th]

/-- C7: for every loop, in both walkers, the body is visited under exactly
the two simultaneously pushed facts `RangeBinding(loopVar, [min, min+extent))`
and `BooleanFact(extent > 0)` (the mutator derives them from the rewritten
bounds), and neither the trace nor (for the mutator) the fresh-identity
consumption depends on the loop kind: sequential, parallel and vectorized
loops behave identically. -/
theorem c7_loop_uniform (tg : Nat) (v : VarT) (m e : PExpr) (k k1 k2 : ForKind)
    (b : Stmt) (n : Nat) (s : List Constr) :
    -- read-only walker: trace shape, for every kind
    ((ConstrVisitor.VisitStmt (.forS tg v m e k b)).evs =
      .visit tg :: .push (.bindRange v ⟨m, e⟩) :: .push (.constr (mkGt e mkZero) false) ::
        (ConstrVisitor.VisitExpr m ++ ConstrVisitor.VisitExpr e ++
          (ConstrVisitor.VisitStmt b).evs) ++ [.pop, .pop])
    -- read-only walker: the whole visit result is kind-independent
    ∧ (ConstrVisitor.VisitStmt (.forS tg v m e k1 b) =
        ConstrVisitor.VisitStmt (.forS tg v m e k2 b))
    -- read-only walker: at the body the stack is the entry stack plus
    -- exactly the two facts
    ∧ (replay (.visit tg :: .push (.bindRange v ⟨m, e⟩) ::
        .push (.constr (mkGt e mkZero) false) ::
          (ConstrVisitor.VisitExpr m ++ ConstrVisitor.VisitExpr e)) s =
        s ++ [.bindRange v ⟨m, e⟩, .constr (mkGt e mkZero) false])
    -- rewriting walker: trace shape, for every kind
    ∧ ((ConstrMutator.VisitStmt (.forS tg v m e k b) n).evs =
      .visit tg :: (ConstrMutator.VisitExpr m n).evs ++
        (ConstrMutator.VisitExpr e (ConstrMutator.VisitExpr m n).fresh).evs ++
        .push (.bindRange v ⟨(ConstrMutator.VisitExpr m n).out,
          (ConstrMutator.VisitExpr e (ConstrMutator.VisitExpr m n).fresh).out⟩) ::
        .push (.constr (mkGt (ConstrMutator.VisitExpr e (ConstrMutator.VisitExpr m n).fresh).out
          mkZero) false) ::
        (ConstrMutator.VisitStmt b
          (ConstrMutator.VisitExpr e (ConstrMutator.VisitExpr m n).fresh).fresh).evs ++
        [.pop, .pop])
    -- rewriting walker: trace and fresh-identity consumption are
    -- kind-independent
    ∧ ((ConstrMutator.VisitStmt (.forS tg v m e k1 b) n).evs =
        (ConstrMutator.VisitStmt (.forS tg v m e k2 b) n).evs)
    ∧ ((ConstrMutator.VisitStmt (.forS tg v m e k1 b) n).fresh =
        (ConstrMutator.VisitStmt (.forS tg v m e k2 b) n).fresh)
    -- rewriting walker: at the body the stack is the entry stack plus
    -- exactly the two facts built from the rewritten bounds
    ∧ (replay (.visit tg :: (ConstrMutator.VisitExpr m n).evs ++
        (ConstrMutator.VisitExpr e (ConstrMutator.VisitExpr m n).fresh).evs ++
        [.push (.bindRange v ⟨(ConstrMutator.VisitExpr m n).out,
          (ConstrMutator.VisitExpr e (ConstrMutator.VisitExpr m n).fresh).out⟩),
         .push (.constr (mkGt (ConstrMutator.VisitExpr e (ConstrMutator.VisitExpr m n).fresh).out
          mkZero) false)]) s =
        s ++ [.bindRange v ⟨(ConstrMutator.VisitExpr m n).out,
          (ConstrMutator.VisitExpr e (ConstrMutator.VisitExpr m n).fresh).out⟩,
          .constr (mkGt (ConstrMutator.VisitExpr e (ConstrMutator.VisitExpr m n).fresh).out
            mkZero) false]) := by
  refine ⟨?_, ?_, ?_, ?_, ?_, ?_, ?_⟩
  · by_cases h : k = .parallel ∨ k = .vectorized <;> simp [ConstrVisitor.VisitStmt, h]
  · by_cases h1 : k1 = .parallel ∨ k1 = .vectorized <;>
      by_cases h2 : k2 = .parallel ∨ k2 = .vectorized <;>
        simp [ConstrVisitor.VisitStmt, h1, h2]
  · simp [replay_VE m, replay_VE e]
  · rw [MS_forS_eq, finishFor_evs]
  · rw [MS_forS_eq, MS_forS_eq, finishFor_evs, finishFor_evs]
  · rw [MS_forS_eq, MS_forS_eq]
    exact finishFor_fresh tg v m e k1 k2 b _ _ _
  · simp [replay_ME m, replay_ME e]

/-- C6: scope balance — replaying the full event trace of either walker
from any starting stack returns exactly that stack; in particular a full
walk started on an empty `constr_stack_` ends with it empty, on the success
and on the exception path alike. -/
theorem c6_scope_balance :
    (∀ (e : PExpr) (s : List Constr), replay (ConstrVisitor.VisitExpr e) s = s)
    ∧ (∀ (t : Stmt) (s : List Constr), replay (ConstrVisitor.VisitStmt t).evs s = s)
    ∧ (∀ (e : PExpr) (n : Nat) (s : List Constr), replay (ConstrMutator.VisitExpr e n).evs s = s)
    ∧ (∀ (t : Stmt) (n : Nat) (s : List Constr), replay (ConstrMutator.VisitStmt t n).evs s = s)
    ∧ (∀ t : Stmt, replay (ConstrVisitor.VisitStmt t).evs [] = [])
    ∧ (∀ (t : Stmt) (n : Nat), replay (ConstrMutator.VisitStmt t n).evs [] = []) :=
  ⟨replay_VE, replay_VS, replay_ME, replay_MS,
    fun t => replay_VS t [], fun t n => replay_MS t n []⟩

/-- C8: `ToGenericConstr` returns the stored expression itself for a
boolean fact, `var == value` for a value binding, and
`var >= min && var < min + extent` for a range binding. -/
theorem c8_to_generic_constr (e : PExpr) (b : Bool) (v w : VarT) (val : PExpr) (r : RangeT) :
    (Constr.constr e b).ToGenericConstr = e
    ∧ (Constr.bindValue v val).ToGenericConstr = mkEq (.var v) val
    ∧ (Constr.bindRange w r).ToGenericConstr =
        mkAnd (mkGe (.var w) r.min) (mkLt (.var w) (mkAdd r.min r.extent)) :=
  ⟨rfl, rfl, rfl⟩

/-- C9: for every fact and mapping, `Substitute` yields a plain boolean
fact (kind `kConstr`, `is_assume = false`, also for assumptions and
bindings) whose expression is the generic predicate with the mapping
applied. -/
theorem c9_substitute_downgrades (m : List (VarT × PExpr)) (e : PExpr) (b : Bool)
    (v w : VarT) (val : PExpr) (r : RangeT) :
    (Constr.constr e b).Substitute m = .constr (substE m e) false
    ∧ (Constr.bindValue v val).Substitute m = .constr (substE m (mkEq (.var v) val)) false
    ∧ (Constr.bindRange w r).Substitute m =
        .constr (substE m (mkAnd (mkGe (.var w) r.min) (mkLt (.var w) (mkAdd r.min r.extent)))) false
    ∧ ∀ c : Constr, c.Substitute m = .constr (substE m c.ToGenericConstr) false :=
  ⟨rfl, rfl, rfl, fun _ => rfl⟩

/-- C10: `CanProve` consults an analyzer that is freshly created for the
call and populated with exactly the set's facts in insertion order — its
verdict is the oracle applied to that analyzer state and nothing else. -/
theorem c10_canprove_fresh_analyzer (oracle : Analyzer → PExpr → Bool) (s : ConstrSet)
    (e : PExpr) :
    s.CanProve oracle e = oracle ⟨s.constrs_.map Constr.entryOf⟩ e := by
  unfold ConstrSet.CanProve ConstrSet.Populate
  show oracle (s.constrs_.foldl (fun acc c => c.Populate acc) ⟨[]⟩) e = _
  rw [populate_foldl]
  simp

end TL
